import Mathlib

/-!
Verification of the FastaParser library (fastaparser package) against its
natural-language specification.  The Python source is shallowly embedded:
strings are `List Char`, Python `dict`s preserving insertion order are
association lists, fallible code returns `Except String` carrying the
exception message, and the mutable caches of `FastaSequence` (`_gc`, `_at`)
are explicit fields threaded through state-passing functions.
-/

namespace FastaParser

/-- Characters treated as whitespace by Python's `str.strip()` / `str.split()`
(ASCII subset; the sources only ever meet ASCII text). -/
def pyIsSpace (c : Char) : Bool :=
  c = ' ' || c = '\t' || c = '\n' || c = '\r' || c = '\x0b' || c = '\x0c'

/-- Python `str.strip()`: remove leading and trailing whitespace. -/
def pyStrip (s : List Char) : List Char :=
  ((s.dropWhile pyIsSpace).reverse.dropWhile pyIsSpace).reverse

/-- Worker for `pySplit`: `acc` is the current token accumulated in reverse. -/
def pySplitGo : List Char → List Char → List (List Char)
  | [], acc => if acc.isEmpty then [] else [acc.reverse]
  | c :: rest, acc =>
    if pyIsSpace c then
      if acc.isEmpty then pySplitGo rest []
      else acc.reverse :: pySplitGo rest []
    else pySplitGo rest (c :: acc)

/-- Python `str.split()` (no separator): split on whitespace runs,
discarding empty pieces. -/
def pySplit (s : List Char) : List (List Char) :=
  pySplitGo s []

/-- Python `str.split(maxsplit=1)`: at most two pieces; the second piece keeps
its trailing whitespace but not the whitespace run that separated it from the
first token. -/
def pySplitMax1 (s : List Char) : List (List Char) :=
  let s1 := s.dropWhile pyIsSpace
  match s1 with
  | [] => []
  | _ :: _ =>
    let tok := s1.takeWhile (fun x => !pyIsSpace x)
    let rest := (s1.dropWhile (fun x => !pyIsSpace x)).dropWhile pyIsSpace
    if rest.isEmpty then [tok] else [tok, rest]

/-- Sequence/letter type tag: `'nucleotide'` or `'aminoacid'`.
`Option SequenceType` models the Python value that may also be `None`. -/
inductive SequenceType where
  | nucleotide
  | aminoacid
deriving DecidableEq, Repr

/-- Keys of `NUCLEOTIDE_LETTER_CODES_GOOD` (constants.py). -/
def NUCLEOTIDE_LETTER_CODES_GOOD : List Char := ['A', 'C', 'G', 'T', 'N', 'U']

/-- Keys of `NUCLEOTIDE_LETTER_CODES_DEGENERATE` (constants.py). -/
def NUCLEOTIDE_LETTER_CODES_DEGENERATE : List Char :=
  ['K', 'S', 'Y', 'M', 'W', 'R', 'B', 'D', 'H', 'V', '-']

/-- `NUCLEOTIDE_LETTER_CODES_COMPLEMENT` (constants.py), as an association list. -/
def NUCLEOTIDE_LETTER_CODES_COMPLEMENT : List (Char × Char) :=
  [('A', 'T'), ('C', 'G'), ('G', 'C'), ('T', 'A'), ('N', 'N'), ('U', 'A'),
   ('K', 'M'), ('S', 'S'), ('Y', 'R'), ('M', 'K'), ('W', 'W'), ('R', 'Y'),
   ('B', 'V'), ('D', 'H'), ('H', 'D'), ('V', 'B'), ('-', '-')]

/-- Keys of `AMINOACID_LETTER_CODES_GOOD` (constants.py). -/
def AMINOACID_LETTER_CODES_GOOD : List Char :=
  ['A', 'B', 'C', 'D', 'E', 'F', 'G', 'H', 'I', 'K', 'L', 'M', 'N', 'P', 'Q',
   'R', 'S', 'T', 'U', 'V', 'W', 'Y', 'Z', 'X', '*']

/-- Keys of `AMINOACID_LETTER_CODES_DEGENERATE` (constants.py). -/
def AMINOACID_LETTER_CODES_DEGENERATE : List Char := ['-']

/-- Good letter codes of a given type (`LETTER_CODES[t][0]` in the source). -/
def letterCodesGood : SequenceType → List Char
  | .nucleotide => NUCLEOTIDE_LETTER_CODES_GOOD
  | .aminoacid => AMINOACID_LETTER_CODES_GOOD

/-- Degenerate letter codes of a given type (`LETTER_CODES[t][1]`). -/
def letterCodesDegenerate : SequenceType → List Char
  | .nucleotide => NUCLEOTIDE_LETTER_CODES_DEGENERATE
  | .aminoacid => AMINOACID_LETTER_CODES_DEGENERATE

/-- `LETTER_CODES_ALL` (constants.py): union of every vocabulary, as the list
of characters appearing in any of the four tables. -/
def LETTER_CODES_ALL : List Char :=
  NUCLEOTIDE_LETTER_CODES_GOOD ++ NUCLEOTIDE_LETTER_CODES_DEGENERATE ++
  AMINOACID_LETTER_CODES_GOOD ++ AMINOACID_LETTER_CODES_DEGENERATE

/-- `NUCLEOTIDE_LETTER_CODES_ALL` (constants.py). -/
def NUCLEOTIDE_LETTER_CODES_ALL : List Char :=
  NUCLEOTIDE_LETTER_CODES_GOOD ++ NUCLEOTIDE_LETTER_CODES_DEGENERATE

/-- `AMINOACID_LETTER_CODES_ALL` (constants.py). -/
def AMINOACID_LETTER_CODES_ALL : List Char :=
  AMINOACID_LETTER_CODES_GOOD ++ AMINOACID_LETTER_CODES_DEGENERATE

/-- `AMINOACIDS_NOT_IN_NUCLEOTIDES` (constants.py): the aminoacid codes
absent from the nucleotide vocabulary. -/
def AMINOACIDS_NOT_IN_NUCLEOTIDES : List Char :=
  AMINOACID_LETTER_CODES_ALL.filter (fun c => !NUCLEOTIDE_LETTER_CODES_ALL.contains c)

/-- One `LetterCode` object (lettercode.py).  `degenerate` is tri-state in the
source (`True`/`False`/`None`), modelled as `Option Bool`. -/
structure LetterCode where
  letter_code : Char
  letter_type : Option SequenceType
  degenerate : Option Bool
  supported : Bool
  in_fasta_spec : Bool
deriving DecidableEq, Repr

/-- `LetterCode._update_letter_type` (lettercode.py): sets `letter_type` and
recomputes `degenerate` and `supported` against the vocabulary of the new
type.  `letter_code` and `in_fasta_spec` are untouched. -/
def updateLetterType (lc : LetterCode) (t : Option SequenceType) : LetterCode :=
  match t with
  | some ty =>
    if (letterCodesGood ty).contains lc.letter_code then
      { lc with letter_type := t, degenerate := some false, supported := true }
    else if (letterCodesDegenerate ty).contains lc.letter_code then
      { lc with letter_type := t, degenerate := some true, supported := true }
    else
      { lc with letter_type := t, degenerate := none, supported := false }
  | none => { lc with letter_type := none, degenerate := none, supported := false }

/-- `LetterCode.__init__` (lettercode.py) on a single character: upper-cases
the character, records membership in `LETTER_CODES_ALL`, then classifies via
`_update_letter_type`.  (The `TypeError` on non-single-character input cannot
arise here because a `Char` is one character by construction.) -/
def mkLetterCode (c : Char) (t : Option SequenceType) : LetterCode :=
  let u := c.toUpper
  updateLetterType
    { letter_code := u, letter_type := none, degenerate := none,
      supported := false, in_fasta_spec := LETTER_CODES_ALL.contains u } t

/-- `NUCLEOTIDE_LETTER_CODES_COMPLEMENT.get(c, c)`: look the character up in
the complement table, defaulting to the character itself. -/
def complementChar (c : Char) : Char :=
  match NUCLEOTIDE_LETTER_CODES_COMPLEMENT.lookup c with
  | some d => d
  | none => c

/-- `LetterCode.complement` (lettercode.py): error for aminoacid letter codes,
otherwise a new `LetterCode` with the complemented character and the same
`letter_type` (a warning for `letter_type = None` is a side channel not
modelled). -/
def LetterCode.complement (lc : LetterCode) : Except String LetterCode :=
  if lc.letter_type = some .aminoacid then
    .error "Complement is not possible for aminoacids"
  else
    .ok (mkLetterCode (complementChar lc.letter_code) lc.letter_type)

/-- `LetterCode.__eq__` against another `LetterCode`: equality of the
(upper-cased) stored characters only. -/
def lcEq (a b : LetterCode) : Bool :=
  a.letter_code == b.letter_code

/-- One `FastaSequence` object (fastasequence.py).  `counts` is the `_counts`
dict (insertion-ordered association list), `gc` and `atc` are the `_gc` and
`_at` caches, `None` until first computed. -/
structure FastaSequence where
  id : List Char
  description : List Char
  sequence_type : Option SequenceType
  inferred_type : Bool
  sequence : List LetterCode
  counts : List (Char × Nat)
  gc : Option Int
  atc : Option Int
deriving DecidableEq, Repr

/-- `FastaSequence._update_id`: strip, replace spaces by `_`, drop remaining
whitespace (`"".join(....split())`), then drop a leading `>` if present. -/
def updateId (id_ : List Char) : List Char :=
  let cleaned :=
    (pySplit ((pyStrip id_).map (fun c => if c = ' ' then '_' else c))).flatten
  match cleaned with
  | '>' :: rest => rest
  | other => other

/-- `FastaSequence._update_description`: `" ".join(description.strip().split())`,
collapsing whitespace runs to single spaces. -/
def updateDescription (description : List Char) : List Char :=
  List.intercalate [' '] (pySplit (pyStrip description))

/-- Python `dict.setdefault(c, 0) + 1` assignment on an insertion-ordered
dict: bump the value at an existing key in place, or append `(c, 1)`. -/
def countsIncr : List (Char × Nat) → Char → List (Char × Nat)
  | [], c => [(c, 1)]
  | (k, v) :: rest, c =>
    if k = c then (k, v + 1) :: rest else (k, v) :: countsIncr rest c

/-- `FastaSequence._build_letter_code_sequence_and_counts`: one pass that
upper-cases each character, builds a `LetterCode` with the current sequence
type, and counts the (upper-cased) characters. -/
def buildLetterCodeSequenceAndCounts (s : List Char) (t : Option SequenceType) :
    List LetterCode × List (Char × Nat) :=
  s.foldl
    (fun (acc : List LetterCode × List (Char × Nat)) c =>
      let u := c.toUpper
      (acc.1 ++ [mkLetterCode u t], countsIncr acc.2 u))
    ([], [])

/-- `FastaSequence._infer_sequence_type`: scan the raw (not yet upper-cased)
string; the first character in `AMINOACIDS_NOT_IN_NUCLEOTIDES` makes the
sequence `aminoacid` with `inferred_type = true`; otherwise the current type
is kept and `inferred_type` stays `false`. -/
def inferSequenceType : List Char → Option SequenceType → Option SequenceType × Bool
  | [], current => (current, false)
  | c :: rest, current =>
    if AMINOACIDS_NOT_IN_NUCLEOTIDES.contains c then (some .aminoacid, true)
    else inferSequenceType rest current

/-- `FastaSequence.__init__`: normalizes id and description, records the
sequence type (with `inferred_type = false`), rejects the empty sequence with
a `TypeError`, optionally runs type inference, then builds the letter list and
counts with the (possibly inferred) type.  `_gc` and `_at` start out `None`. -/
def mkFastaSequence (sequence : List Char) (id_ description : List Char)
    (sequence_type : Option SequenceType) (infer_type : Bool) :
    Except String FastaSequence :=
  if sequence.isEmpty then .error "sequence must be a non empty str"
  else
    let (t, inferred) :=
      if infer_type then inferSequenceType sequence sequence_type
      else (sequence_type, false)
    let built := buildLetterCodeSequenceAndCounts sequence t
    .ok { id := updateId id_, description := updateDescription description,
          sequence_type := t, inferred_type := inferred,
          sequence := built.1, counts := built.2, gc := none, atc := none }

/-- `FastaSequence.sequence_as_string`: the stored letter characters. -/
def sequenceAsString (fs : FastaSequence) : List Char :=
  fs.sequence.map (fun lc => lc.letter_code)

/-- `FastaSequence._update_sequence_type` with
`update_letter_code_objects=True`, i.e. the body of the `sequence_type`
property setter: store the new type, reset `inferred_type`, and assign
`letter_type` on every contained `LetterCode` (which reclassifies it). -/
def setSequenceType (fs : FastaSequence) (t : Option SequenceType) : FastaSequence :=
  { fs with sequence_type := t, inferred_type := false,
            sequence := fs.sequence.map (fun lc => updateLetterType lc t) }

/-- Successive slices `s[i : i + (w+1)]` of the sequence, as taken by the
`formatted_sequence` while-loop.  The width is encoded as `w + 1` so that the
recursion (on a strictly shorter remainder) is visibly terminating; the
clamping of the source guarantees the real width is at least 1. -/
def chunksAux (w : Nat) : List Char → List (List Char)
  | [] => []
  | c :: rest => (c :: rest).take (w + 1) :: chunksAux w ((c :: rest).drop (w + 1))
termination_by s => s.length
decreasing_by simp; omega

/-- The accumulation loop of `FastaSequence.formatted_sequence`: each chunk of
`w + 1` characters followed by `'\n'`. -/
def fmtAll (w : Nat) : List Char → List Char
  | [] => []
  | c :: rest =>
    ((c :: rest).take (w + 1) ++ ['\n']) ++ fmtAll w ((c :: rest).drop (w + 1))
termination_by s => s.length
decreasing_by simp; omega

/-- `FastaSequence.formatted_sequence(max_characters_per_line)` on an `int`
argument: widths ≤ 0 are clamped to 1, the sequence characters are emitted in
lines of at most the width, and the final `'\n'` appended by the loop is
removed (`final_sequence[:-1]`).  The effective width is `w + 1` where
`w = max_characters_per_line - 1` after clamping. -/
def formattedSequence (m : Int) (s : List Char) : List Char :=
  let w : Nat := if m ≤ 0 then 0 else m.toNat - 1
  (fmtAll w s).dropLast

/-- Python argument values `count_letter_codes` and `formatted_sequence` may
receive: `None`, an `int`, a string, or a list of characters. -/
inductive PyArg where
  | pnone
  | pint (n : Int)
  | pstr (s : List Char)
  | plist (l : List Char)
deriving DecidableEq, Repr

/-- Python truthiness of a `PyArg` value. -/
def PyArg.truthy : PyArg → Bool
  | .pnone => false
  | .pint n => n ≠ 0
  | .pstr s => !s.isEmpty
  | .plist l => !l.isEmpty

/-- The elements `iter(x)` yields, or `none` when `x` is not iterable
(in which case `iter(x)` raises `TypeError`). -/
def PyArg.iterElems : PyArg → Option (List Char)
  | .pnone => none
  | .pint _ => none
  | .pstr s => some s
  | .plist l => some l

/-- `dict` comprehension over key/value pairs: later occurrences of a key
overwrite the stored value, first occurrence fixes the position. -/
def dictInsert : List (Char × Nat) → Char → Nat → List (Char × Nat)
  | [], c, v => [(c, v)]
  | (k, w) :: rest, c, v =>
    if k = c then (k, v) :: rest else (k, w) :: dictInsert rest c v

/-- `dict` built from a list of key/value pairs in order. -/
def dictOfPairs (l : List (Char × Nat)) : List (Char × Nat) :=
  l.foldl (fun d p => dictInsert d p.1 p.2) []

/-- `self._counts.get(letter, 0)`. -/
def countsGet (counts : List (Char × Nat)) (c : Char) : Nat :=
  match counts.lookup c with
  | some v => v
  | none => 0

/-- `FastaSequence.count_letter_codes(letter_codes)`: a `None` or falsy
argument returns the full `_counts` dict; otherwise the argument is iterated
(raising `TypeError` if it is not iterable) into a dict restricted to exactly
the iterated keys, missing keys defaulting to 0. -/
def countLetterCodes (fs : FastaSequence) (letter_codes : PyArg) :
    Except String (List (Char × Nat)) :=
  if letter_codes = .pnone || !letter_codes.truthy then .ok fs.counts
  else
    match letter_codes.iterElems with
    | some elems => .ok (dictOfPairs (elems.map (fun c => (c, countsGet fs.counts c))))
    | none => .error "argument of type is not iterable"

/-- `FastaSequence.formatted_sequence` including its `isinstance(..., int)`
guard: a non-`int` argument raises `TypeError`. -/
def formattedSequencePy (fs : FastaSequence) (arg : PyArg) : Except String (List Char) :=
  match arg with
  | .pint n => .ok (formattedSequence n (sequenceAsString fs))
  | _ => .error "max_characters_per_line must be an int"

/-- `FastaSequence.formatted_definition_line`. -/
def formattedDefinitionLine (fs : FastaSequence) : List Char :=
  if fs.description.isEmpty then '>' :: fs.id
  else '>' :: fs.id ++ ' ' :: fs.description

/-- `FastaSequence.formatted_fasta`: definition line, newline, formatted
sequence at the default width 70. -/
def formattedFasta (fs : FastaSequence) : List Char :=
  formattedDefinitionLine fs ++ '\n' :: formattedSequence 70 (sequenceAsString fs)

/-- The counting loop of `gc_content`: number of letters whose character is
`G`, `C` or `S`. -/
def countGC (sequence : List LetterCode) : Int :=
  sequence.foldl
    (fun gc lc =>
      if lc.letter_code = 'G' || lc.letter_code = 'C' || lc.letter_code = 'S' then gc + 1
      else gc)
    0

/-- `FastaSequence.gc_content(as_percentage)`: `TypeError` for aminoacid
sequences; otherwise, when the `_gc` cache is falsy (`None` or `0`) the G/C/S
counter is (re)computed and stored, and the returned value is the cached
counter divided by the sequence length (×100 when `as_percentage`).  Returns
the value together with the updated object. -/
def gcContent (fs : FastaSequence) (as_percentage : Bool) :
    Except String (Rat × FastaSequence) :=
  if fs.sequence_type = some .aminoacid then
    .error "GC content is not meant to be calculated for aminoacid sequences"
  else
    let gcVal : Int :=
      match fs.gc with
      | some v => if v = 0 then countGC fs.sequence else v
      | none => countGC fs.sequence
    let fs' := { fs with gc := some gcVal }
    let ratio : Rat := (gcVal : Rat) / (fs.sequence.length : Rat)
    .ok (if as_percentage then ratio * 100 else ratio, fs')

/-- Manual overwrite of the `_gc` cache (`seq._gc = v`), as the tests of the
library do to show the cache is honored. -/
def overwriteGc (fs : FastaSequence) (v : Int) : FastaSequence :=
  { fs with gc := some v }

/-- A Python `slice(start, stop, step)` object with its optional fields. -/
structure PySlice where
  start : Option Int
  stop : Option Int
  step : Option Int
deriving DecidableEq, Repr

/-- CPython `PySlice.indices(length)` clamping for one bound: resolve a
negative index against the length and clamp into `[lower, upper]`. -/
def sliceClampBound (b : Option Int) (dflt lower upper L : Int) : Int :=
  match b with
  | none => dflt
  | some x =>
    let x := if x < 0 then x + L else x
    if x < lower then lower else if x > upper then upper else x

/-- Number of indices selected by adjusted bounds `start`/`stop` at stride
`step` (CPython `PySlice_AdjustIndices` result). -/
def sliceCount (start stop step : Int) : Nat :=
  if step > 0 then
    if stop ≤ start then 0 else ((stop - start - 1).toNat / step.toNat) + 1
  else
    if start ≤ stop then 0 else ((start - stop - 1).toNat / (-step).toNat) + 1

/-- Python sequence slicing `l[sl]`: `ValueError` for a zero step, otherwise
the elements at `start, start+step, ...` after CPython index adjustment. -/
def sliceExtract (l : List Char) (sl : PySlice) : Except String (List Char) :=
  let step := match sl.step with | none => 1 | some st => st
  if step = 0 then .error "slice step cannot be zero"
  else
    let L : Int := l.length
    let lower : Int := if step < 0 then -1 else 0
    let upper : Int := if step < 0 then L - 1 else L
    let start := sliceClampBound sl.start (if step < 0 then upper else lower) lower upper L
    let stop := sliceClampBound sl.stop (if step < 0 then lower else upper) lower upper L
    .ok ((List.range (sliceCount start stop step)).map
      (fun k => l.getD (start + k * step).toNat 'A'))

/-- Python `repr` of `start`/`stop`/`step` as interpolated by
`"%s" % item.start`: decimal digits, or `None`. -/
def pyShowOptInt : Option Int → List Char
  | none => ['N', 'o', 'n', 'e']
  | some n =>
    if n < 0 then '-' :: (Nat.toDigits 10 (-n).toNat) else Nat.toDigits 10 n.toNat

/-- Argument of `FastaSequence.__getitem__`: an `int` index or a slice. -/
inductive SliceOrInt where
  | idx (i : Int)
  | slice (sl : PySlice)
deriving DecidableEq, Repr

/-- Result of `FastaSequence.__getitem__`: a single `LetterCode` for integer
indexing, a new `FastaSequence` for slicing. -/
inductive GetItemResult where
  | letter (lc : LetterCode)
  | subsequence (fs : FastaSequence)
deriving DecidableEq, Repr

/-- Placeholder letter used only as the (unreachable) default of in-bounds
list accesses. -/
def defaultLetter : LetterCode := mkLetterCode 'A' none

/-- `FastaSequence.__getitem__`: an integer index returns the `LetterCode` at
that position (Python list indexing, negative indices counting from the end,
`IndexError` out of bounds); a slice takes the corresponding substring of
`sequence_as_string()`, raises `TypeError` if that substring is empty, and
otherwise builds a new `FastaSequence` from it with the slice bounds appended
to the description. -/
def fsGetitem (fs : FastaSequence) : SliceOrInt → Except String GetItemResult
  | .idx i =>
    let j := if i < 0 then i + fs.sequence.length else i
    if 0 ≤ j ∧ j < fs.sequence.length then
      .ok (.letter (fs.sequence.getD j.toNat defaultLetter))
    else .error "list index out of range"
  | .slice sl => do
    let newSequence ← sliceExtract (sequenceAsString fs) sl
    if newSequence.isEmpty then
      .error "Slice resulted in an empty sequence. FastaSequence must have a non-empty sequence"
    else
      let sliceText :=
        ('[' :: "SLICE OF ORIGINAL: ".toList) ++ pyShowOptInt sl.start ++
        ':' :: pyShowOptInt sl.stop ++ ':' :: pyShowOptInt sl.step ++ [']']
      let newDescription :=
        if fs.description.isEmpty then sliceText
        else fs.description ++ ' ' :: sliceText
      (mkFastaSequence newSequence fs.id newDescription fs.sequence_type false).map
        GetItemResult.subsequence

/-- `ParseDefinitionLine._parse_definition_line` (parsedefinitionline.py):
split on the first whitespace run; an empty line or a bare `>` gives empty id
and description; otherwise the first token (minus a leading `>`) is the id and
the remainder, if any, the description. -/
def parseDefinitionLine (definition_line : List Char) : List Char × List Char :=
  match pySplitMax1 definition_line with
  | [] => ([], [])
  | [tok] =>
    if tok = ['>'] then ([], [])
    else match tok with
      | '>' :: rest => (rest, [])
      | other => (other, [])
  | tok :: desc :: _ =>
    match tok with
    | '>' :: rest => (rest, desc)
    | other => (other, desc)

/-- `Reader._generate_fasta_sequence_object` with `parse_method='rich'`:
parse the definition line and build a `FastaSequence` with the Reader's
configured `sequences_type` and `infer_type`. -/
def generateRich (sequences_type : Option SequenceType) (infer_type : Bool)
    (sequence definition_line : List Char) : Except String FastaSequence :=
  mkFastaSequence sequence (parseDefinitionLine definition_line).1
    (parseDefinitionLine definition_line).2 sequences_type infer_type

/-- The `namedtuple("Fasta", ["header", "sequence"])` record produced by
`parse_method='quick'`. -/
structure QuickFasta where
  header : List Char
  sequence : List Char
deriving DecidableEq, Repr

/-- `line.startswith('>')`. -/
def isHeader : List Char → Bool
  | [] => false
  | c :: _ => c == '>'

/-- The loop of `Reader._iter_fasta_file` with `parse_method='rich'`, over an
explicit list of (unstripped) lines and the loop state: the remembered
definition line, the accumulated sequence, and the `parsing_fasta_sequence`
flag.  While scanning, a header line switches to accumulation; while
accumulating, empty lines are ignored, a header line finalizes and emits the
current record, and any other line extends the body.  At end of input a final
record is produced only when the accumulated sequence is non-empty.  Any
exception escaping `FastaSequence` construction aborts the iteration. -/
def iterRich (sequences_type : Option SequenceType) (infer_type : Bool) :
    List (List Char) → List Char → List Char → Bool →
    Except String (List FastaSequence)
  | [], definition_line, sequence, _ =>
    if sequence.isEmpty then .ok []
    else (generateRich sequences_type infer_type sequence definition_line).map (fun fs => [fs])
  | line :: rest, definition_line, sequence, parsing =>
    let l := pyStrip line
    if parsing = false then
      if isHeader l then iterRich sequences_type infer_type rest l sequence true
      else iterRich sequences_type infer_type rest definition_line sequence false
    else
      if l.isEmpty then iterRich sequences_type infer_type rest definition_line sequence true
      else if isHeader l then
        match generateRich sequences_type infer_type sequence definition_line with
        | .error e => .error e
        | .ok fs =>
          (iterRich sequences_type infer_type rest l [] true).map (fun out => fs :: out)
      else iterRich sequences_type infer_type rest definition_line (sequence ++ l) true

/-- The same loop with `parse_method='quick'`: records are plain
header/sequence pairs and nothing can fail. -/
def iterQuick : List (List Char) → List Char → List Char → Bool → List QuickFasta
  | [], definition_line, sequence, _ =>
    if sequence.isEmpty then [] else [⟨definition_line, sequence⟩]
  | line :: rest, definition_line, sequence, parsing =>
    let l := pyStrip line
    if parsing = false then
      if isHeader l then iterQuick rest l sequence true
      else iterQuick rest definition_line sequence false
    else
      if l.isEmpty then iterQuick rest definition_line sequence true
      else if isHeader l then ⟨definition_line, sequence⟩ :: iterQuick rest l [] true
      else iterQuick rest definition_line (sequence ++ l) true

/-- Iterating a Reader in 'rich' mode from its initial state
(`definition_line = ""`, `sequence = ""`, `parsing_fasta_sequence = False`). -/
def readerRich (sequences_type : Option SequenceType) (infer_type : Bool)
    (lines : List (List Char)) : Except String (List FastaSequence) :=
  iterRich sequences_type infer_type lines [] [] false

/-- Iterating a Reader in 'quick' mode from its initial state. -/
def readerQuick (lines : List (List Char)) : List QuickFasta :=
  iterQuick lines [] [] false

/-- `Writer.writefasta` on a `FastaSequence` object: the text written to the
file, `formatted_fasta() + "\n\n"`. -/
def writefasta (fs : FastaSequence) : List Char :=
  formattedFasta fs ++ ['\n', '\n']

/-- Splitting a text into the pieces between newline characters
(`text.split('\n')`). -/
def splitOnNl : List Char → List (List Char)
  | [] => [[]]
  | c :: rest =>
    if c = '\n' then [] :: splitOnNl rest
    else
      match splitOnNl rest with
      | [] => [[c]]
      | h :: t => (c :: h) :: t

/-- The lines a Python text file containing `text` yields when iterated (each
with its trailing `'\n'` removed; the Reader strips lines anyway, so the
newline itself is dropped here): splitting on `'\n'` gives one spurious empty
final piece when the text ends in a newline. -/
def fileLines (text : List Char) : List (List Char) :=
  let pieces := splitOnNl text
  if text.getLast? = some '\n' then pieces.dropLast else pieces

/-- Writing a `FastaSequence` with `Writer.writefasta` and iterating a fresh
rich-mode Reader (default configuration: no sequence type, no inference) over
the produced text. -/
def roundTrip (fs : FastaSequence) : Except String (List FastaSequence) :=
  readerRich none false (fileLines (writefasta fs))

/-- Lines of at most the chunk width joined by a single `'\n'`, with no
trailing newline: the shape `formatted_sequence` produces. -/
def joinNl : List (List Char) → List Char
  | [] => []
  | [a] => a
  | a :: b :: t => a ++ '\n' :: joinNl (b :: t)

/-- Some input line is a (stripped) header line immediately followed by
another header line. -/
def adjHeaders : List (List Char) → Bool
  | [] => false
  | [_] => false
  | l1 :: l2 :: rest =>
    (isHeader (pyStrip l1) && isHeader (pyStrip l2)) || adjHeaders (l2 :: rest)

/-- Fallback object for extracting from an `Except` known to be `.ok`. -/
def dummyFasta : FastaSequence :=
  { id := [], description := [], sequence_type := none, inferred_type := false,
    sequence := [defaultLetter], counts := [('A', 1)], gc := none, atc := none }

/-- Extract the object from a successful construction. -/
def getFasta (e : Except String FastaSequence) : FastaSequence :=
  match e with
  | .ok fs => fs
  | .error _ => dummyFasta

/-- `FastaSequence("D")` (untyped). -/
def fsD : FastaSequence := getFasta (mkFastaSequence ['D'] [] [] none false)

/-- `FastaSequence("G", sequence_type='nucleotide')`. -/
def fsG : FastaSequence :=
  getFasta (mkFastaSequence ['G'] [] [] (some .nucleotide) false)

/-- `FastaSequence("A")` (untyped). -/
def fsA : FastaSequence := getFasta (mkFastaSequence ['A'] [] [] none false)

/-- `FastaSequence("ACTG")` (untyped). -/
def fsACTG : FastaSequence :=
  getFasta (mkFastaSequence "ACTG".toList [] [] none false)

/-- `FastaSequence(" ")`: a single-space sequence, accepted by the
constructor because the string is non-empty. -/
def fsSpace : FastaSequence :=
  getFasta (mkFastaSequence [' '] [] [] none false)

/-- A `LetterCode` carries exactly the classification `_update_letter_type`
derives for type `t`: `letter_type` is `t`, `supported` says whether the
character is in `t`'s vocabulary, and `degenerate` is `false`/`true`/unknown
according to the good/degenerate/neither split. -/
def classifiedAs (lc : LetterCode) (t : SequenceType) : Prop :=
  lc.letter_type = some t ∧
  lc.supported = ((letterCodesGood t).contains lc.letter_code
    || (letterCodesDegenerate t).contains lc.letter_code) ∧
  lc.degenerate = (if (letterCodesGood t).contains lc.letter_code then some false
    else if (letterCodesDegenerate t).contains lc.letter_code then some true
    else none)

theorem updateLetterType_letter_code (lc : LetterCode) (t : Option SequenceType) :
    (updateLetterType lc t).letter_code = lc.letter_code := by
  cases t with
  | none => rfl
  | some ty =>
    simp only [updateLetterType]
    split
    · rfl
    · split <;> rfl

theorem updateLetterType_classifies (lc : LetterCode) (t : SequenceType) :
    classifiedAs (updateLetterType lc (some t)) t := by
  by_cases hg : lc.letter_code ∈ letterCodesGood t
  · simp [classifiedAs, updateLetterType, hg]
  · by_cases hd : lc.letter_code ∈ letterCodesDegenerate t
    · simp [classifiedAs, updateLetterType, hg, hd]
    · simp [classifiedAs, updateLetterType, hg, hd]

/-- C1: the claim asserts that assigning a valid value to `sequence_type`
leaves the classification of the already-built `LetterCode` objects
unchanged.  It is false: `FastaSequence("D")` holds a `LetterCode` with
`letter_type = None`, `degenerate = None`, `supported = False`, and setting
`sequence_type = 'aminoacid'` reclassifies it to `letter_type = 'aminoacid'`,
`degenerate = False`, `supported = True`. -/
theorem C1_setter_reclassifies_counterexample :
    (setSequenceType fsD (some .aminoacid)).sequence.map
        (fun lc => (lc.letter_type, lc.degenerate, lc.supported)) ≠
      fsD.sequence.map (fun lc => (lc.letter_type, lc.degenerate, lc.supported)) ∧
    (setSequenceType fsD (some .aminoacid)).sequence_type = some .aminoacid := by
  constructor
  · decide
  · rfl

/-- C1 (amended): assigning a new valid value to the `sequence_type` property
of an existing `FastaSequence` updates the Sequence's own `sequence_type`
field and also reclassifies every contained `LetterCode` against the new
type's vocabulary (`_update_sequence_type` runs with
`update_letter_code_objects=True`); the letter characters themselves and
their order are unchanged. -/
theorem C1_setter_updates_letter_codes (fs : FastaSequence) (t : SequenceType) :
    (setSequenceType fs (some t)).sequence_type = some t ∧
    (setSequenceType fs (some t)).sequence.map (fun lc => lc.letter_code)
      = fs.sequence.map (fun lc => lc.letter_code) ∧
    ∀ lc ∈ (setSequenceType fs (some t)).sequence, classifiedAs lc t := by
  refine ⟨rfl, ?_, ?_⟩
  · simp [setSequenceType, updateLetterType_letter_code]
  · intro lc hm
    simp only [setSequenceType, List.mem_map] at hm
    obtain ⟨lc0, _, rfl⟩ := hm
    exact updateLetterType_classifies lc0 t

/-- Witness for C1 (amended): the `'D'` letter of `FastaSequence("D")` is
reclassified against the aminoacid vocabulary by the setter. -/
theorem C1_setter_updates_letter_codes_witness :
    classifiedAs (updateLetterType (mkLetterCode 'D' none) (some .aminoacid))
      .aminoacid :=
  (C1_setter_updates_letter_codes fsD .aminoacid).2.2 _ (by decide)

/-- C2: reading `">seq1 desc one\nACGT\nNN\n>seq2\nPROTEIN\n"` with a
rich-mode Reader yields exactly the records (`seq1`, `desc one`, `ACGTNN`)
and (`seq2`, ``, `PROTEIN`); and, in general, reaching end of input with an
empty accumulated body emits no final record. -/
theorem C2_reader_scenario :
    (readerRich none false
        (fileLines ">seq1 desc one\nACGT\nNN\n>seq2\nPROTEIN\n".toList)).map
      (List.map (fun fs => (fs.id, fs.description, sequenceAsString fs)))
      = .ok [("seq1".toList, "desc one".toList, "ACGTNN".toList),
             ("seq2".toList, "".toList, "PROTEIN".toList)] ∧
    ∀ (st : Option SequenceType) (inf : Bool) (definition_line : List Char)
      (parsing : Bool),
      iterRich st inf [] definition_line [] parsing = .ok [] := by
  exact ⟨by rfl, fun st inf dl p => rfl⟩

/-- C4: the claim asserts complement-of-complement is the identity for every
code in the nucleotide "good" vocabulary `{A, C, G, T, N, U}`.  It is false
for `U`: `U`'s complement is `A` and `A`'s complement is `T`, so the double
complement of `LetterCode('U', 'nucleotide')` is the letter `T`, which is not
equal (by `LetterCode.__eq__`) to `U`. -/
theorem C4_involution_counterexample :
    'U' ∈ NUCLEOTIDE_LETTER_CODES_GOOD ∧
    (mkLetterCode 'U' (some .nucleotide)).complement.bind LetterCode.complement
      = .ok (mkLetterCode 'T' (some .nucleotide)) ∧
    lcEq (mkLetterCode 'T' (some .nucleotide)) (mkLetterCode 'U' (some .nucleotide))
      = false := by
  refine ⟨by decide, by rfl, by decide⟩

/-- C4 (amended): complement-of-complement is the identity on the nucleotide
"good" codes other than `U` (namely `A`, `C`, `G`, `T`, `N`); for `U` the
double complement is `T`. -/
theorem C4_involution_on_ACGTN :
    (['A', 'C', 'G', 'T', 'N'].all fun c =>
      match (mkLetterCode c (some .nucleotide)).complement.bind LetterCode.complement with
      | .ok lc => lcEq lc (mkLetterCode c (some .nucleotide))
      | .error _ => false) = true := by decide

theorem inferSequenceType_eq (s : List Char) (cur : Option SequenceType) :
    inferSequenceType s cur =
      if s.any (fun c => AMINOACIDS_NOT_IN_NUCLEOTIDES.contains c)
      then (some .aminoacid, true) else (cur, false) := by
  induction s with
  | nil => simp [inferSequenceType]
  | cons c rest ih =>
    by_cases h : c ∈ AMINOACIDS_NOT_IN_NUCLEOTIDES
    · simp [inferSequenceType, h]
    · simp [inferSequenceType, h, ih]

/-- C5: constructing `FastaSequence(s, infer_type=True)` with no explicit
sequence type classifies the sequence as aminoacid with `inferred_type = true`
iff some character of `s` is in `AMINOACIDS_NOT_IN_NUCLEOTIDES`; otherwise
`sequence_type` stays `None` and `inferred_type` is `false`. -/
theorem C5_infer_type (s : List Char) (h : s ≠ []) :
    (mkFastaSequence s [] [] none true).map
        (fun fs => (fs.sequence_type, fs.inferred_type))
      = .ok (if s.any (fun c => AMINOACIDS_NOT_IN_NUCLEOTIDES.contains c)
             then (some .aminoacid, true) else (none, false)) := by
  obtain ⟨c, rest, rfl⟩ := List.exists_cons_of_ne_nil h
  simp only [mkFastaSequence, List.isEmpty_cons, Bool.false_eq_true, if_false,
    inferSequenceType_eq]
  cases hP : (c :: rest).any fun x => AMINOACIDS_NOT_IN_NUCLEOTIDES.contains x
  · simp [hP, Except.map]
  · simp [hP, Except.map]

/-- Witness for C5: the spec's scenario string infers aminoacid, and a pure
nucleotide string is left untyped. -/
theorem C5_infer_type_witness :
    (mkFastaSequence "ACDEFGHIKLMNPQRSTVWY".toList [] [] none true).map
        (fun fs => (fs.sequence_type, fs.inferred_type))
      = .ok (some .aminoacid, true) ∧
    (mkFastaSequence "ACGT".toList [] [] none true).map
        (fun fs => (fs.sequence_type, fs.inferred_type))
      = .ok (none, false) := by
  constructor
  · rw [C5_infer_type _ (by decide)]; rfl
  · rw [C5_infer_type _ (by decide)]; rfl

/-- C6: the claim asserts that any value `v` stored in the `_gc` cache is
honored by later `gc_content` calls (returned as `v / len`).  It is false for
`v = 0`: the guard `if not self._gc` treats a cached `0` as "not yet
computed", so on `FastaSequence("G", 'nucleotide')` with `_gc` overwritten to
`0`, `gc_content()` recomputes the counter and returns `1`, not `0/1 = 0`. -/
theorem C6_gc_cache_counterexample :
    (gcContent (overwriteGc fsG 0) false).map Prod.fst
      = .ok ((countGC fsG.sequence : Rat) / ((fsG.sequence.length : Nat) : Rat)) ∧
    countGC fsG.sequence = 1 ∧ fsG.sequence.length = 1 ∧
    ((1 : Rat) / (1 : Rat)) = 1 ∧ ((0 : Rat) / (1 : Rat)) = 0 ∧ (1 : Rat) ≠ 0 := by
  refine ⟨rfl, by decide, by decide, by norm_num, by norm_num, by norm_num⟩

/-- C6 (amended): a nonzero value `v` stored in the `_gc` cache (computed or
manually overwritten) is honored: every later `gc_content` call on a
non-aminoacid sequence returns `v / len` (×100 as percentage) without
recomputing the counter and leaves the object unchanged.  A cache holding `0`
or the `None` sentinel instead triggers (re)computation, because the guard
`if not self._gc` tests Python truthiness. -/
theorem C6_gc_cache_honored (fs : FastaSequence) (b : Bool) (v : Int)
    (hty : fs.sequence_type ≠ some .aminoacid) (hgc : fs.gc = some v)
    (hv : v ≠ 0) :
    gcContent fs b =
      .ok (if b then ((v : Rat) / (fs.sequence.length : Rat)) * 100
           else (v : Rat) / (fs.sequence.length : Rat), fs) := by
  unfold gcContent
  rw [if_neg hty, hgc]
  simp only [hv, if_false, if_neg hv]
  have hfs : { fs with gc := some v } = fs := by
    cases fs
    simp_all
  rw [hfs]

/-- Witness for C6 (amended): on `FastaSequence("G", 'nucleotide')` with the
cache overwritten to `5` (which is not the true counter value 1),
`gc_content()` returns `5 / 1` and does not recompute. -/
theorem C6_gc_cache_honored_witness :
    (overwriteGc fsG 5).sequence_type ≠ some .aminoacid ∧
    (overwriteGc fsG 5).gc = some 5 ∧ (5 : Int) ≠ 0 ∧
    gcContent (overwriteGc fsG 5) false =
      .ok (((5 : Int) : Rat) / (((overwriteGc fsG 5).sequence.length : Nat) : Rat),
           overwriteGc fsG 5) := by
  refine ⟨by decide, by rfl, by decide, ?_⟩
  have h := C6_gc_cache_honored (overwriteGc fsG 5) false 5 (by decide) (by rfl)
    (by decide)
  simpa using h

theorem countsGet_cons (k : Char) (v : Nat) (rest : List (Char × Nat)) (c : Char) :
    countsGet ((k, v) :: rest) c = if c = k then v else countsGet rest c := by
  by_cases h : c = k
  · subst h; simp [countsGet, List.lookup]
  · have hb : (c == k) = false := by simpa using h
    simp [countsGet, List.lookup, hb, h]

theorem countsGet_nil (c : Char) : countsGet [] c = 0 := rfl

theorem countsGet_countsIncr (d : List (Char × Nat)) (u c : Char) :
    countsGet (countsIncr d u) c = countsGet d c + (if u = c then 1 else 0) := by
  induction d with
  | nil =>
    by_cases h : u = c
    · subst h; simp [countsIncr, countsGet_cons, countsGet_nil]
    · simp [countsIncr, countsGet_cons, countsGet_nil, h, Ne.symm h]
  | cons p rest ih =>
    obtain ⟨k, v⟩ := p
    by_cases hk : k = u
    · subst hk
      by_cases hc : k = c
      · subst hc; simp [countsIncr, countsGet_cons]
      · simp [countsIncr, countsGet_cons, hc, Ne.symm hc]
    · by_cases hc : k = c
      · subst hc
        simp [countsIncr, hk, countsGet_cons, Ne.symm hk]
      · simp [countsIncr, hk, countsGet_cons, hc, Ne.symm hc, ih]

theorem countsGet_foldl (s : List Char) (acc : List (Char × Nat)) (c : Char) :
    countsGet (s.foldl (fun d x => countsIncr d x.toUpper) acc) c
      = countsGet acc c + (s.map Char.toUpper).count c := by
  induction s generalizing acc with
  | nil => simp
  | cons x rest ih =>
    simp only [List.foldl_cons, ih, countsGet_countsIncr, List.map_cons,
      List.count_cons]
    have hif : (if x.toUpper = c then 1 else 0) = (if (x.toUpper == c) = true then 1 else 0) := by
      by_cases h : x.toUpper = c <;> simp [h]
    rw [hif]
    omega

theorem build_counts (s : List Char) (t : Option SequenceType)
    (accL : List LetterCode) (accC : List (Char × Nat)) :
    (s.foldl
        (fun (acc : List LetterCode × List (Char × Nat)) c =>
          (acc.1 ++ [mkLetterCode c.toUpper t], countsIncr acc.2 c.toUpper))
        (accL, accC)).2
      = s.foldl (fun d x => countsIncr d x.toUpper) accC := by
  induction s generalizing accL accC with
  | nil => rfl
  | cons x rest ih => simp [ih]

theorem build_letters (s : List Char) (t : Option SequenceType)
    (accL : List LetterCode) (accC : List (Char × Nat)) :
    (s.foldl
        (fun (acc : List LetterCode × List (Char × Nat)) c =>
          (acc.1 ++ [mkLetterCode c.toUpper t], countsIncr acc.2 c.toUpper))
        (accL, accC)).1
      = accL ++ s.map (fun c => mkLetterCode c.toUpper t) := by
  induction s generalizing accL accC with
  | nil => simp
  | cons x rest ih => simp [ih]

theorem mk_counts (s id_ d : List Char) (t : Option SequenceType) (inf : Bool)
    (fs : FastaSequence) (hmk : mkFastaSequence s id_ d t inf = .ok fs)
    (c : Char) : countsGet fs.counts c = (s.map Char.toUpper).count c := by
  unfold mkFastaSequence at hmk
  by_cases h : s.isEmpty
  · simp [h] at hmk
  · simp only [h, Bool.false_eq_true, if_false, Except.ok.injEq] at hmk
    subst hmk
    simp only [buildLetterCodeSequenceAndCounts, build_counts, countsGet_foldl]
    simp [countsGet, List.lookup]

/-- C7: the claim asserts `count_letter_codes(x)` fails with `InvalidInput`
for every non-`None`, non-iterable `x`.  It is false for falsy non-iterables:
`count_letter_codes(0)` takes the `if letter_codes is None or not
letter_codes` branch and returns the full counts dict instead of raising. -/
theorem C7_count_arg_counterexample :
    countLetterCodes fsACTG (.pint 0) = .ok fsACTG.counts ∧
    (PyArg.pint 0) ≠ PyArg.pnone ∧ PyArg.iterElems (.pint 0) = none := by
  exact ⟨rfl, by decide, rfl⟩

/-- C7 (amended): a truthy non-iterable argument (a nonzero int) raises
`TypeError`, while a falsy one returns the full counts dict; and for every
non-empty list of characters the result is a dict over exactly those keys,
each mapped to its occurrence count in the (upper-cased) sequence, missing
letters defaulting to 0. -/
theorem C7_count_letter_codes :
    (∀ (fs : FastaSequence) (n : Int), n ≠ 0 →
      countLetterCodes fs (.pint n) = .error "argument of type is not iterable") ∧
    (∀ (s id_ d : List Char) (t : Option SequenceType) (inf : Bool)
        (fs : FastaSequence) (l : List Char),
      mkFastaSequence s id_ d t inf = .ok fs → l ≠ [] →
      countLetterCodes fs (.plist l) =
        .ok (dictOfPairs (l.map (fun c => (c, (s.map Char.toUpper).count c))))) := by
  constructor
  · intro fs n hn
    simp [countLetterCodes, PyArg.truthy, hn, PyArg.iterElems]
  · intro s id_ d t inf fs l hmk hl
    have hne : l.isEmpty = false := by simpa using hl
    simp only [countLetterCodes, PyArg.truthy, PyArg.iterElems, hne,
      Bool.not_false, Bool.or_false, Bool.or_true, mk_counts s id_ d t inf fs hmk]
    simp

/-- Witness for C7 (amended): the spec's scenario
`Sequence("ACTG").count_letter_codes(["A","X"]) == {"A":1, "X":0}`, and the
truthy non-iterable `7` raises. -/
theorem C7_count_letter_codes_witness :
    countLetterCodes fsACTG (.plist ['A', 'X']) = .ok [('A', 1), ('X', 0)] ∧
    countLetterCodes fsACTG (.pint 7) = .error "argument of type is not iterable" := by
  constructor
  · rw [C7_count_letter_codes.2 "ACTG".toList [] [] none false fsACTG ['A', 'X']
      rfl (by decide)]
    rfl
  · exact C7_count_letter_codes.1 fsACTG 7 (by decide)

/-- C8: a `FastaSequence` never represents zero letters: construction from
the empty string fails; slicing that selects no characters fails instead of
producing an empty Sequence; and integer indexing within bounds (Python
semantics, negative indices counting from the end) returns the `LetterCode`
at that position. -/
theorem C8_never_empty :
    (∀ (id_ d : List Char) (t : Option SequenceType) (inf : Bool),
      mkFastaSequence [] id_ d t inf = .error "sequence must be a non empty str") ∧
    (∀ (fs : FastaSequence) (sl : PySlice),
      sliceExtract (sequenceAsString fs) sl = .ok [] →
      fsGetitem fs (.slice sl) =
        .error "Slice resulted in an empty sequence. FastaSequence must have a non-empty sequence") ∧
    (∀ (fs : FastaSequence) (i : Int),
      0 ≤ (if i < 0 then i + fs.sequence.length else i) →
      (if i < 0 then i + fs.sequence.length else i) < fs.sequence.length →
      fsGetitem fs (.idx i) =
        .ok (.letter (fs.sequence.getD
          (if i < 0 then i + fs.sequence.length else i).toNat defaultLetter))) := by
  refine ⟨fun id_ d t inf => rfl, ?_, ?_⟩
  · intro fs sl h
    simp [fsGetitem, h, Except.bind, Bind.bind]
  · intro fs i h0 h1
    simp only [fsGetitem]
    rw [if_pos ⟨h0, h1⟩]

/-- Witness for C8: `FastaSequence("A")[1:1]` fails, and `FastaSequence("ACTG")[2]`
is the `LetterCode` `T`. -/
theorem C8_never_empty_witness :
    mkFastaSequence [] [] [] none false = .error "sequence must be a non empty str" ∧
    fsGetitem fsA (.slice ⟨some 1, some 1, none⟩) =
      .error "Slice resulted in an empty sequence. FastaSequence must have a non-empty sequence" ∧
    fsGetitem fsACTG (.idx 2) = .ok (.letter (mkLetterCode 'T' none)) := by
  refine ⟨C8_never_empty.1 [] [] none false, ?_, ?_⟩
  · exact C8_never_empty.2.1 fsA ⟨some 1, some 1, none⟩ rfl
  · have h := C8_never_empty.2.2 fsACTG 2 (by decide) (by decide)
    rw [h]
    rfl

theorem chunksAux_flatten (w : Nat) : ∀ s : List Char, (chunksAux w s).flatten = s
  | [] => by simp [chunksAux]
  | c :: rest => by
    rw [chunksAux]
    have ih := chunksAux_flatten w ((c :: rest).drop (w + 1))
    rw [List.flatten_cons, ih, List.take_append_drop]
termination_by s => s.length
decreasing_by simp; omega

theorem chunksAux_mem (w : Nat) : ∀ s ch : List Char, ch ∈ chunksAux w s →
    ch ≠ [] ∧ ch.length ≤ w + 1 ∧ ∀ x ∈ ch, x ∈ s
  | [], ch => by simp [chunksAux]
  | c :: rest, ch => by
    rw [chunksAux]
    intro hmem
    rcases List.mem_cons.mp hmem with h | h
    · subst h
      refine ⟨by simp, List.length_take_le (w + 1) (c :: rest), ?_⟩
      intro x hx
      exact List.mem_of_mem_take hx
    · have ih := chunksAux_mem w ((c :: rest).drop (w + 1)) ch h
      exact ⟨ih.1, ih.2.1, fun x hx => List.mem_of_mem_drop (ih.2.2 x hx)⟩
termination_by s _ => s.length
decreasing_by simp; omega

theorem fmtAll_eq (w : Nat) : ∀ s : List Char, s ≠ [] →
    fmtAll w s = joinNl (chunksAux w s) ++ ['\n']
  | [], h => absurd rfl h
  | c :: rest, _ => by
    rw [fmtAll, chunksAux]
    by_cases hd : (c :: rest).drop (w + 1) = []
    · rw [hd]
      simp [fmtAll, chunksAux, joinNl]
    · have ih := fmtAll_eq w ((c :: rest).drop (w + 1)) hd
      rw [ih]
      have hch : chunksAux w ((c :: rest).drop (w + 1)) ≠ [] := by
        obtain ⟨d, ds, hds⟩ := List.exists_cons_of_ne_nil hd
        rw [hds, chunksAux]
        simp
      obtain ⟨ch, cht, hch2⟩ := List.exists_cons_of_ne_nil hch
      rw [hch2]
      simp [joinNl]
termination_by s => s.length
decreasing_by simp; omega

/-- C9: `formatted_sequence` fails with `TypeError` when the argument is not
an `int`; an integer ≤ 0 behaves exactly as width 1; and a positive width
yields the sequence characters cut into non-empty chunks of at most that
width (whose concatenation is the whole sequence), joined by single newlines
with no trailing newline. -/
theorem C9_formatted_sequence :
    (∀ fs : FastaSequence,
      formattedSequencePy fs .pnone = .error "max_characters_per_line must be an int") ∧
    (∀ (fs : FastaSequence) (s : List Char),
      formattedSequencePy fs (.pstr s) = .error "max_characters_per_line must be an int") ∧
    (∀ (fs : FastaSequence) (l : List Char),
      formattedSequencePy fs (.plist l) = .error "max_characters_per_line must be an int") ∧
    (∀ (m : Int) (s : List Char), m ≤ 0 →
      formattedSequence m s = formattedSequence 1 s) ∧
    (∀ (m : Int) (s : List Char), 0 < m →
      formattedSequence m s = joinNl (chunksAux (m.toNat - 1) s) ∧
      (chunksAux (m.toNat - 1) s).flatten = s ∧
      ∀ ch ∈ chunksAux (m.toNat - 1) s, ch ≠ [] ∧ (ch.length : Int) ≤ m) := by
  refine ⟨fun fs => rfl, fun fs s => rfl, fun fs l => rfl, ?_, ?_⟩
  · intro m s hm
    simp [formattedSequence, hm]
  · intro m s hm
    have hw : ¬ m ≤ 0 := by omega
    refine ⟨?_, chunksAux_flatten _ s, ?_⟩
    · simp only [formattedSequence, hw, if_false]
      by_cases hs : s = []
      · subst hs; simp [fmtAll, chunksAux, joinNl]
      · rw [fmtAll_eq _ s hs, List.dropLast_concat]
    · intro ch hch
      have h := chunksAux_mem (m.toNat - 1) s ch hch
      refine ⟨h.1, ?_⟩
      have h2 := h.2.1
      omega

theorem iterRich_cons (st : Option SequenceType) (inf : Bool) (line : List Char)
    (rest : List (List Char)) (dl seq : List Char) (parsing : Bool) :
    iterRich st inf (line :: rest) dl seq parsing =
      (let l := pyStrip line
       if parsing = false then
         if isHeader l then iterRich st inf rest l seq true
         else iterRich st inf rest dl seq false
       else
         if l.isEmpty then iterRich st inf rest dl seq true
         else if isHeader l then
           match generateRich st inf seq dl with
           | .error e => .error e
           | .ok fs => (iterRich st inf rest l [] true).map (fun out => fs :: out)
         else iterRich st inf rest dl (seq ++ l) true) := rfl

theorem iterRich_nil (st : Option SequenceType) (inf : Bool) (dl seq : List Char)
    (parsing : Bool) :
    iterRich st inf [] dl seq parsing =
      if seq.isEmpty then .ok []
      else (generateRich st inf seq dl).map (fun fs => [fs]) := rfl

theorem generateRich_nil (st : Option SequenceType) (inf : Bool) (dl : List Char) :
    generateRich st inf [] dl = .error "sequence must be a non empty str" := rfl

theorem generateRich_ok (st : Option SequenceType) (inf : Bool) (dl : List Char)
    (s : List Char) (h : s ≠ []) : ∃ fs, generateRich st inf s dl = .ok fs := by
  obtain ⟨c, rest, rfl⟩ := List.exists_cons_of_ne_nil h
  exact ⟨_, rfl⟩

theorem isHeader_isEmpty_false (l : List Char) (h : isHeader l = true) :
    l.isEmpty = false := by
  cases l with
  | nil => simp [isHeader] at h
  | cons c t => rfl

theorem iterRich_header_empty (st : Option SequenceType) (inf : Bool)
    (l2 : List Char) (rest2 : List (List Char)) (dl : List Char)
    (h : isHeader (pyStrip l2) = true) :
    iterRich st inf (l2 :: rest2) dl [] true
      = .error "sequence must be a non empty str" := by
  rw [iterRich_cons]
  simp [isHeader_isEmpty_false _ h, h, generateRich_nil]

theorem iterRich_adjHeaders (st : Option SequenceType) (inf : Bool) :
    ∀ (lines : List (List Char)) (dl seq : List Char) (parsing : Bool),
      adjHeaders lines = true → (parsing = false → seq = []) →
      ∃ e, iterRich st inf lines dl seq parsing = .error e := by
  intro lines
  induction lines with
  | nil =>
    intro dl seq parsing h _
    simp [adjHeaders] at h
  | cons l rest ih =>
    intro dl seq parsing hadj hinv
    cases rest with
    | nil => simp [adjHeaders] at hadj
    | cons l2 rest2 =>
      rw [adjHeaders, Bool.or_eq_true, Bool.and_eq_true] at hadj
      cases parsing with
      | false =>
        have hseq := hinv rfl
        subst hseq
        rcases hadj with ⟨h1, h2⟩ | hB
        · refine ⟨"sequence must be a non empty str", ?_⟩
          rw [iterRich_cons]
          simp only [h1, if_true, show (false = false) = True by simp]
          exact iterRich_header_empty st inf l2 rest2 (pyStrip l) h2
        · by_cases hh : isHeader (pyStrip l) = true
          · obtain ⟨e, he⟩ := ih (pyStrip l) [] true hB (fun h => nomatch h)
            refine ⟨e, ?_⟩
            rw [iterRich_cons]
            simp only [hh, if_true, show (false = false) = True by simp]
            exact he
          · obtain ⟨e, he⟩ := ih dl [] false hB (fun _ => rfl)
            refine ⟨e, ?_⟩
            rw [iterRich_cons]
            simp only [hh, if_false, Bool.not_eq_true,
              show (false = false) = True by simp, if_true]
            exact he
      | true =>
        rcases hadj with ⟨h1, h2⟩ | hB
        · have hne := isHeader_isEmpty_false _ h1
          rcases hgen : generateRich st inf seq dl with e | fs
          · refine ⟨e, ?_⟩
            rw [iterRich_cons]
            simp [hne, h1, hgen]
          · refine ⟨"sequence must be a non empty str", ?_⟩
            rw [iterRich_cons]
            simp [hne, h1, hgen,
              iterRich_header_empty st inf l2 rest2 (pyStrip l) h2, Except.map]
        · by_cases hemp : (pyStrip l).isEmpty = true
          · obtain ⟨e, he⟩ := ih dl seq true hB (fun h => nomatch h)
            refine ⟨e, ?_⟩
            rw [iterRich_cons]
            simp only [hemp, if_true, show (true = false) = False by simp, if_false]
            exact he
          · by_cases hh : isHeader (pyStrip l) = true
            · rcases hgen : generateRich st inf seq dl with e | fs
              · refine ⟨e, ?_⟩
                rw [iterRich_cons]
                simp [hemp, hh, hgen]
              · obtain ⟨e, he⟩ := ih (pyStrip l) [] true hB (fun h => nomatch h)
                refine ⟨e, ?_⟩
                rw [iterRich_cons]
                simp [hemp, hh, hgen, he, Except.map]
            · obtain ⟨e, he⟩ := ih dl (seq ++ pyStrip l) true hB (fun h => nomatch h)
              refine ⟨e, ?_⟩
              rw [iterRich_cons]
              simp only [hemp, hh, if_false, Bool.not_eq_true,
                show (true = false) = False by simp]
              exact he

theorem iterQuick_cons (line : List Char) (rest : List (List Char))
    (dl seq : List Char) (parsing : Bool) :
    iterQuick (line :: rest) dl seq parsing =
      (let l := pyStrip line
       if parsing = false then
         if isHeader l then iterQuick rest l seq true
         else iterQuick rest dl seq false
       else
         if l.isEmpty then iterQuick rest dl seq true
         else if isHeader l then ⟨dl, seq⟩ :: iterQuick rest l [] true
         else iterQuick rest dl (seq ++ l) true) := rfl

theorem iterQuick_header (l2 : List Char) (rest2 : List (List Char))
    (dl seq : List Char) (h : isHeader (pyStrip l2) = true) :
    iterQuick (l2 :: rest2) dl seq true
      = ⟨dl, seq⟩ :: iterQuick rest2 (pyStrip l2) [] true := by
  rw [iterQuick_cons]
  simp [isHeader_isEmpty_false _ h, h]

theorem iterQuick_adjHeaders :
    ∀ (lines : List (List Char)) (dl seq : List Char) (parsing : Bool),
      adjHeaders lines = true → (parsing = false → seq = []) →
      ∃ pre hdr post, iterQuick lines dl seq parsing
        = pre ++ ⟨hdr, []⟩ :: post := by
  intro lines
  induction lines with
  | nil =>
    intro dl seq parsing h _
    simp [adjHeaders] at h
  | cons l rest ih =>
    intro dl seq parsing hadj hinv
    cases rest with
    | nil => simp [adjHeaders] at hadj
    | cons l2 rest2 =>
      rw [adjHeaders, Bool.or_eq_true, Bool.and_eq_true] at hadj
      cases parsing with
      | false =>
        have hseq := hinv rfl
        subst hseq
        rcases hadj with ⟨h1, h2⟩ | hB
        · refine ⟨[], pyStrip l, iterQuick rest2 (pyStrip l2) [] true, ?_⟩
          rw [iterQuick_cons]
          simp only [h1, if_true, show (false = false) = True by simp]
          rw [iterQuick_header l2 rest2 (pyStrip l) [] h2]
          rfl
        · by_cases hh : isHeader (pyStrip l) = true
          · obtain ⟨pre, hdr, post, hp⟩ := ih (pyStrip l) [] true hB (fun h => nomatch h)
            refine ⟨pre, hdr, post, ?_⟩
            rw [iterQuick_cons]
            simp only [hh, if_true, show (false = false) = True by simp]
            exact hp
          · obtain ⟨pre, hdr, post, hp⟩ := ih dl [] false hB (fun _ => rfl)
            refine ⟨pre, hdr, post, ?_⟩
            rw [iterQuick_cons]
            simp only [hh, if_false, Bool.not_eq_true,
              show (false = false) = True by simp, if_true]
            exact hp
      | true =>
        rcases hadj with ⟨h1, h2⟩ | hB
        · refine ⟨[⟨dl, seq⟩], pyStrip l, iterQuick rest2 (pyStrip l2) [] true, ?_⟩
          rw [iterQuick_header l (l2 :: rest2) dl seq h1,
            iterQuick_header l2 rest2 (pyStrip l) [] h2]
          rfl
        · by_cases hemp : (pyStrip l).isEmpty = true
          · obtain ⟨pre, hdr, post, hp⟩ := ih dl seq true hB (fun h => nomatch h)
            refine ⟨pre, hdr, post, ?_⟩
            rw [iterQuick_cons]
            simp only [hemp, if_true, show (true = false) = False by simp, if_false]
            exact hp
          · by_cases hh : isHeader (pyStrip l) = true
            · obtain ⟨pre, hdr, post, hp⟩ := ih (pyStrip l) [] true hB (fun h => nomatch h)
              refine ⟨⟨dl, seq⟩ :: pre, hdr, post, ?_⟩
              rw [iterQuick_header l (l2 :: rest2) dl seq hh, hp]
              rfl
            · obtain ⟨pre, hdr, post, hp⟩ := ih dl (seq ++ pyStrip l) true hB (fun h => nomatch h)
              refine ⟨pre, hdr, post, ?_⟩
              rw [iterQuick_cons]
              simp only [hemp, hh, if_false, Bool.not_eq_true,
                show (true = false) = False by simp]
              exact hp

/-- C10: for every input containing a header line immediately followed by
another header line, a rich-mode Reader raises an error during iteration (the
empty accumulated body reaches `FastaSequence`, which rejects empty
sequences), while a quick-mode Reader on any such input yields a record whose
sequence string is empty and continues, its output being a normally-produced
record list around that empty-sequence record — as on the concrete scenario
`">seq1\n>seq2\nACGT"`, where the records after the empty one are still
emitted. -/
theorem C10_consecutive_headers :
    (∀ (st : Option SequenceType) (inf : Bool) (lines : List (List Char)),
      adjHeaders lines = true → ∃ e, readerRich st inf lines = .error e) ∧
    (∀ lines : List (List Char), adjHeaders lines = true →
      ∃ pre hdr post, readerQuick lines = pre ++ ⟨hdr, []⟩ :: post) ∧
    readerQuick ([">seq1", ">seq2", "ACGT"].map String.toList)
      = [⟨">seq1".toList, []⟩, ⟨">seq2".toList, "ACGT".toList⟩] := by
  refine ⟨?_, ?_, rfl⟩
  · intro st inf lines h
    exact iterRich_adjHeaders st inf lines [] [] false h (fun _ => rfl)
  · intro lines h
    exact iterQuick_adjHeaders lines [] [] false h (fun _ => rfl)

/-- Witness for C10: on `">seq1\n>seq2\nACGT"` the rich Reader errors while
the quick Reader yields a record with empty sequence string and continues,
its full output being `(">seq1", "")` followed by `(">seq2", "ACGT")`. -/
theorem C10_consecutive_headers_witness :
    (∃ e, readerRich none false ([">seq1", ">seq2", "ACGT"].map String.toList)
      = .error e) ∧
    (∃ pre hdr post, readerQuick ([">seq1", ">seq2", "ACGT"].map String.toList)
      = pre ++ ⟨hdr, []⟩ :: post) ∧
    readerQuick ([">seq1", ">seq2", "ACGT"].map String.toList)
      = [⟨">seq1".toList, []⟩, ⟨">seq2".toList, "ACGT".toList⟩] :=
  ⟨C10_consecutive_headers.1 none false _ (by decide),
   C10_consecutive_headers.2.1 _ (by decide),
   C10_consecutive_headers.2.2⟩

theorem dropWhile_append_singleton (p : Char → Bool) (c : Char) (hc : p c = false) :
    ∀ a : List Char, ∃ a', List.dropWhile p (a ++ [c]) = a' ++ [c]
  | [] => ⟨[], by simp [List.dropWhile, hc]⟩
  | x :: xs => by
    by_cases hx : p x = true
    · obtain ⟨a', ha⟩ := dropWhile_append_singleton p c hc xs
      exact ⟨a', by simp [List.dropWhile_cons, hx, ha]⟩
    · exact ⟨x :: xs, by simp [List.dropWhile_cons, hx]⟩

theorem pyStrip_cons (c : Char) (t : List Char) (hc : pyIsSpace c = false) :
    ∃ t', pyStrip (c :: t) = c :: t' := by
  unfold pyStrip
  rw [List.dropWhile_cons, hc]
  obtain ⟨a', ha⟩ := dropWhile_append_singleton pyIsSpace c hc t.reverse
  refine ⟨a'.reverse, ?_⟩
  simp only [Bool.false_eq_true, if_false, List.reverse_cons, ha,
    List.reverse_append, List.reverse_cons, List.reverse_nil, List.nil_append]
  rfl

theorem isHeader_pyStrip_gt (t : List Char) :
    isHeader (pyStrip ('>' :: t)) = true := by
  obtain ⟨t', ht⟩ := pyStrip_cons '>' t (by decide)
  rw [ht]
  rfl

theorem dropWhile_eq_self_of_all (p : Char → Bool) (l : List Char)
    (h : ∀ x ∈ l, p x = false) : List.dropWhile p l = l := by
  cases l with
  | nil => rfl
  | cons x xs =>
    rw [List.dropWhile_cons, h x (List.mem_cons_self x xs)]
    simp

theorem pyStrip_eq_self (l : List Char) (h : ∀ x ∈ l, pyIsSpace x = false) :
    pyStrip l = l := by
  unfold pyStrip
  rw [dropWhile_eq_self_of_all _ _ h,
    dropWhile_eq_self_of_all _ _ (fun x hx => h x (by simpa using hx)),
    List.reverse_reverse]

theorem splitOnNl_append_nl (a r : List Char) (h : '\n' ∉ a) :
    splitOnNl (a ++ '\n' :: r) = a :: splitOnNl r := by
  induction a with
  | nil => simp [splitOnNl]
  | cons c t ih =>
    have hc : ¬ c = '\n' := fun hh => h (hh ▸ List.mem_cons_self c t)
    have ht : '\n' ∉ t := fun hm => h (List.mem_cons_of_mem c hm)
    simp [splitOnNl, hc, ih ht]

theorem splitOnNl_joinNl (L : List (List Char)) (r : List Char) (hL : L ≠ [])
    (h : ∀ l ∈ L, '\n' ∉ l) :
    splitOnNl (joinNl L ++ '\n' :: r) = L ++ splitOnNl r := by
  induction L with
  | nil => exact absurd rfl hL
  | cons a t ih =>
    cases t with
    | nil =>
      rw [joinNl, List.cons_append, List.nil_append,
        splitOnNl_append_nl a r (h a (List.mem_cons_self a []))]
    | cons b t2 =>
      rw [joinNl, List.append_assoc, List.cons_append,
        splitOnNl_append_nl a _ (h a (List.mem_cons_self a (b :: t2))),
        ih (by simp) (fun l hl => h l (List.mem_cons_of_mem a hl))]
      rfl

theorem iterRich_chunks (st : Option SequenceType) (inf : Bool) :
    ∀ (chs : List (List Char)) (dl acc : List Char),
      (∀ l ∈ chs, l ≠ [] ∧ isHeader l = false ∧ ∀ x ∈ l, pyIsSpace x = false) →
      iterRich st inf (chs ++ [[]]) dl acc true
        = iterRich st inf [] dl (acc ++ chs.flatten) true := by
  intro chs
  induction chs with
  | nil =>
    intro dl acc h
    rw [List.nil_append, iterRich_cons]
    simp [pyStrip, List.dropWhile]
  | cons ch cht ih =>
    intro dl acc h
    obtain ⟨hne, hhd, hws⟩ := h ch (List.mem_cons_self _ _)
    have hemp : ch.isEmpty = false := by simpa using hne
    rw [List.cons_append, iterRich_cons]
    simp only [pyStrip_eq_self ch hws, hemp, hhd, Bool.false_eq_true, if_false,
      show (true = false) = False by simp]
    rw [ih dl (acc ++ ch) (fun l hl => h l (List.mem_cons_of_mem _ hl))]
    simp [List.append_assoc]

theorem mkLetterCode_letter_code (c : Char) (t : Option SequenceType) :
    (mkLetterCode c t).letter_code = c.toUpper := by
  unfold mkLetterCode
  rw [updateLetterType_letter_code]

theorem mk_seqString (s id_ d : List Char) (t : Option SequenceType) (inf : Bool)
    (fs : FastaSequence) (hmk : mkFastaSequence s id_ d t inf = .ok fs) :
    sequenceAsString fs = s.map (fun c => c.toUpper.toUpper) := by
  unfold mkFastaSequence at hmk
  by_cases h : s.isEmpty
  · simp [h] at hmk
  · simp only [h, Bool.false_eq_true, if_false, Except.ok.injEq] at hmk
    subst hmk
    simp only [sequenceAsString, buildLetterCodeSequenceAndCounts, build_letters,
      List.nil_append, List.map_map]
    simp [mkLetterCode_letter_code, Function.comp]

theorem formattedDefinitionLine_cons (fs : FastaSequence) :
    ∃ t, formattedDefinitionLine fs = '>' :: t := by
  unfold formattedDefinitionLine
  split
  · exact ⟨fs.id, rfl⟩
  · exact ⟨fs.id ++ ' ' :: fs.description, rfl⟩

theorem chunksAux_ne_nil (w : Nat) (s : List Char) (h : s ≠ []) :
    chunksAux w s ≠ [] := by
  obtain ⟨c, rest, rfl⟩ := List.exists_cons_of_ne_nil h
  rw [chunksAux]
  simp

/-- C3 (amended): for every `FastaSequence` whose letters are non-whitespace,
not `'>'`, and upper-case-fixed characters (every letter built by the library
itself is upper-cased; spaces, `'>'` and control characters survive
construction but break the FASTA line discipline), and whose id and
description contain no newline, writing with `Writer.writefasta` and reading
the output back with a rich-mode Reader yields exactly one record with the
same sequence string. -/
theorem C3_roundtrip (fs : FastaSequence)
    (hne : fs.sequence ≠ [])
    (hchars : ∀ lc ∈ fs.sequence, pyIsSpace lc.letter_code = false ∧
      lc.letter_code ≠ '>' ∧ lc.letter_code.toUpper = lc.letter_code)
    (hid : '\n' ∉ fs.id) (hdesc : '\n' ∉ fs.description) :
    (roundTrip fs).map (List.map sequenceAsString) = .ok [sequenceAsString fs] := by
  have hstr_ne : sequenceAsString fs ≠ [] := by
    simpa [sequenceAsString] using hne
  have hstr_mem : ∀ x ∈ sequenceAsString fs,
      pyIsSpace x = false ∧ x ≠ '>' ∧ x.toUpper = x := by
    intro x hx
    simp only [sequenceAsString, List.mem_map] at hx
    obtain ⟨lc, hlc, rfl⟩ := hx
    exact hchars lc hlc
  have hchprops : ∀ l ∈ chunksAux 69 (sequenceAsString fs),
      l ≠ [] ∧ isHeader l = false ∧ ∀ x ∈ l, pyIsSpace x = false := by
    intro l hl
    obtain ⟨h1, h2, h3⟩ := chunksAux_mem 69 (sequenceAsString fs) l hl
    refine ⟨h1, ?_, fun x hx => (hstr_mem x (h3 x hx)).1⟩
    obtain ⟨y, ys, rfl⟩ := List.exists_cons_of_ne_nil h1
    have hy := (hstr_mem y (h3 y (List.mem_cons_self y ys))).2.1
    simpa [isHeader] using hy
  have hchnl : ∀ l ∈ chunksAux 69 (sequenceAsString fs), '\n' ∉ l := by
    intro l hl hx
    have h3 := (chunksAux_mem 69 (sequenceAsString fs) l hl).2.2 _ hx
    have hws := (hstr_mem _ h3).1
    simp [pyIsSpace] at hws
  have hchne := chunksAux_ne_nil 69 (sequenceAsString fs) hstr_ne
  have hdefnl : '\n' ∉ formattedDefinitionLine fs := by
    unfold formattedDefinitionLine
    split <;> simp_all
  have h70 : formattedSequence 70 (sequenceAsString fs)
      = joinNl (chunksAux 69 (sequenceAsString fs)) := by
    simp only [formattedSequence, show ¬ (70 : Int) ≤ 0 by decide, if_false,
      show (70 : Int).toNat - 1 = 69 by decide]
    rw [fmtAll_eq 69 _ hstr_ne, List.dropLast_concat]
  have htext : writefasta fs = formattedDefinitionLine fs
      ++ '\n' :: (joinNl (chunksAux 69 (sequenceAsString fs)) ++ '\n' :: ['\n']) := by
    unfold writefasta formattedFasta
    rw [h70]
    simp
  have hlast : (writefasta fs).getLast? = some '\n' := by
    have h : writefasta fs = (formattedFasta fs ++ ['\n']) ++ ['\n'] := by
      simp [writefasta]
    rw [h, List.getLast?_concat]
  have hsplit : splitOnNl (writefasta fs)
      = formattedDefinitionLine fs
        :: (chunksAux 69 (sequenceAsString fs) ++ [[], []]) := by
    rw [htext, splitOnNl_append_nl _ _ hdefnl, splitOnNl_joinNl _ _ hchne hchnl]
    rfl
  have hlines : fileLines (writefasta fs)
      = formattedDefinitionLine fs
        :: (chunksAux 69 (sequenceAsString fs) ++ [[]]) := by
    unfold fileLines
    rw [hlast, hsplit]
    simp only [if_pos]
    rw [show formattedDefinitionLine fs
          :: (chunksAux 69 (sequenceAsString fs) ++ [[], []])
        = (formattedDefinitionLine fs
          :: (chunksAux 69 (sequenceAsString fs) ++ [[]])) ++ [[]] by simp,
      List.dropLast_concat]
  obtain ⟨dtail, hdef⟩ := formattedDefinitionLine_cons fs
  have hhd : isHeader (pyStrip (formattedDefinitionLine fs)) = true := by
    rw [hdef]
    exact isHeader_pyStrip_gt dtail
  obtain ⟨fs', hgen⟩ := generateRich_ok none false
    (pyStrip (formattedDefinitionLine fs)) (sequenceAsString fs) hstr_ne
  have hemp : (sequenceAsString fs).isEmpty = false := by simpa using hstr_ne
  unfold roundTrip readerRich
  rw [hlines, iterRich_cons]
  simp only [hhd, if_true, show (false = false) = True by simp]
  rw [iterRich_chunks none false _ _ _ hchprops, List.nil_append,
    chunksAux_flatten, iterRich_nil, hemp, hgen]
  simp only [Bool.false_eq_true, if_false, Except.map]
  have hseq := mk_seqString (sequenceAsString fs) _ _ none false fs' hgen
  simp only [List.map_cons, List.map_nil]
  rw [hseq]
  have hfix : (sequenceAsString fs).map (fun c => c.toUpper.toUpper)
      = sequenceAsString fs := by
    conv_rhs => rw [← List.map_id (sequenceAsString fs)]
    apply List.map_congr_left
    intro x hx
    have h := (hstr_mem x hx).2.2
    simp [h]
  rw [hfix]

/-- C3: the claim quantifies over every `FastaSequence`, but the constructor
accepts any non-empty string, including whitespace: for
`FastaSequence(" ")` the written FASTA is `">\n \n\n"`, whose body line is
stripped to nothing by the Reader, so reading the output back yields zero
records, not one. -/
theorem C3_roundtrip_counterexample :
    roundTrip fsSpace = .ok [] ∧
    ¬ ∃ fs', roundTrip fsSpace = .ok [fs']
      ∧ sequenceAsString fs' = sequenceAsString fsSpace := by
  have hstr : sequenceAsString fsSpace = [' '] := by decide
  have hfa : fmtAll 69 [' '] = [' ', '\n'] := by
    rw [fmtAll]
    have h1 : [' '].take 70 = [' '] := by decide
    have h2 : [' '].drop 70 = ([] : List Char) := by decide
    rw [h1, h2, fmtAll]
    simp
  have hw : writefasta fsSpace = ">\n \n\n".toList := by
    show formattedDefinitionLine fsSpace
        ++ '\n' :: formattedSequence 70 (sequenceAsString fsSpace) ++ ['\n', '\n']
      = ">\n \n\n".toList
    rw [hstr]
    have hd : formattedDefinitionLine fsSpace = ['>'] := by decide
    rw [hd]
    simp only [formattedSequence, show ¬ (70 : Int) ≤ 0 by decide, if_false,
      show (70 : Int).toNat - 1 = 69 by decide, hfa]
    rfl
  have hrt : roundTrip fsSpace = .ok [] := by
    show readerRich none false (fileLines (writefasta fsSpace)) = .ok []
    rw [hw]
    rfl
  refine ⟨hrt, ?_⟩
  rintro ⟨fs', h1, _⟩
  rw [hrt] at h1
  simp at h1

/-- Witness for C3 (amended): the round trip on `FastaSequence("ACTG")`
yields exactly one record with sequence string `ACTG`. -/
theorem C3_roundtrip_witness :
    (roundTrip fsACTG).map (List.map sequenceAsString)
      = .ok [sequenceAsString fsACTG] :=
  C3_roundtrip fsACTG (by decide) (by decide) (by decide) (by decide)

/-- Witness for C9: widths `0` and `1` agree on `"ABCDE"`, width `3` on
`"ACGTACGT"` produces the newline-joined chunks, and a `None` argument
raises. -/
theorem C9_formatted_sequence_witness :
    formattedSequence 0 "ABCDE".toList = formattedSequence 1 "ABCDE".toList ∧
    formattedSequence 3 "ACGTACGT".toList
      = joinNl (chunksAux ((3 : Int).toNat - 1) "ACGTACGT".toList) ∧
    formattedSequencePy fsACTG .pnone = .error "max_characters_per_line must be an int" :=
  ⟨C9_formatted_sequence.2.2.2.1 0 _ (by decide),
   (C9_formatted_sequence.2.2.2.2 3 _ (by decide)).1,
   C9_formatted_sequence.1 fsACTG⟩

end FastaParser
